import Mathlib

/-!
Shallow embedding of the persona-loop orchestrator (`dev/agents/auto_develop.py`)
and its helper module (`dev/agents/agent.py`).

Strings are modelled as `List Char`; the Python string operations used by the
source (`str.find`, slicing, `str.strip`, `str.split(sep, 1)`,
`str.rsplit(sep, n)`, negative indexing, `str.removeprefix`, `str.startswith`,
`str.endswith`) are given as executable Lean functions below.  External effects
(git commands, the test runner, the LLM provider, PR creation) are modelled as
events emitted by the control flow of `run_loop`, with their success or failure
supplied by an environment.
-/

namespace Agents

/-- Python `str.isspace` character class for the ASCII whitespace characters
that `str.strip()` removes. -/
def pyIsSpace (c : Char) : Bool :=
  c = ' ' || c = '\t' || c = '\n' || c = '\r' || c = '\x0b' || c = '\x0c'

/-- Python `s.strip()`: remove leading and trailing whitespace. -/
def pyStrip (s : List Char) : List Char :=
  ((s.dropWhile pyIsSpace).reverse.dropWhile pyIsSpace).reverse

/-- Python slice `s[a:b]` for non-negative bounds. -/
def pySlice (s : List Char) (a b : Nat) : List Char :=
  (s.drop a).take (b - a)

/-- Python `s.find(needle)`: index of the first occurrence of `needle` as a
sub-list, `none` standing for Python's `-1`. -/
def findSub (needle : List Char) : List Char → Option Nat
  | [] => if needle.isPrefixOf ([] : List Char) then some 0 else none
  | c :: t =>
    if needle.isPrefixOf (c :: t) then some 0
    else (findSub needle t).map (fun n => n + 1)

/-- Python `s.split(sep, 1)` when `sep` occurs: the parts before and after the
first occurrence of `sep`; `none` when `sep` does not occur. -/
def pySplitOnce (sep : Char) : List Char → Option (List Char × List Char)
  | [] => none
  | c :: t =>
    if c = sep then some ([], t)
    else
      match pySplitOnce sep t with
      | none => none
      | some (a, b) => some (c :: a, b)

/-- Split at the last occurrence of `sep` (the single step of Python
`rsplit`); `none` when `sep` does not occur. -/
def splitOnceRight (sep : Char) (s : List Char) : Option (List Char × List Char) :=
  match pySplitOnce sep s.reverse with
  | none => none
  | some (a, b) => some (b.reverse, a.reverse)

/-- Python `s.rsplit(sep, n)`: split from the right at most `n` times. -/
def pyRsplit (sep : Char) : Nat → List Char → List (List Char)
  | 0, s => [s]
  | n + 1, s =>
    match splitOnceRight sep s with
    | none => [s]
    | some (l, r) => pyRsplit sep n l ++ [r]

/-- Python negative indexing `l[-k]`; `Except.error` models `IndexError`. -/
def pyGetNeg (l : List (List Char)) (k : Nat) : Except Unit (List Char) :=
  if h : 0 < k ∧ k ≤ l.length then
    Except.ok (l.get ⟨l.length - k, by omega⟩)
  else Except.error ()

/-- Python `s.removeprefix(pre)`. -/
def pyDropLeading (pre s : List Char) : List Char :=
  if pre.isPrefixOf s then s.drop pre.length else s

/-- Python `s.startswith(pre)`. -/
def pyStartswith (pre s : List Char) : Bool := pre.isPrefixOf s

/-- Python `s.endswith(suf)`. -/
def pyEndswith (suf s : List Char) : Bool := suf.reverse.isPrefixOf s.reverse

/-- Truthiness of a Python `Optional[str]`: `None` and `""` are falsy. -/
def optTruthy : Option (List Char) → Bool
  | none => false
  | some s => !s.isEmpty

/-- The literal begin marker of the patch protocol. -/
def PATCH_START : List Char := "PATCH_START".toList

/-- The literal end marker of the patch protocol. -/
def PATCH_END : List Char := "PATCH_END".toList

/-- Does the stripped response start with a known diff header?  This is the
condition of the fallback branch of `request_patch_from_llm`
(agent.py line 277). -/
def looksLikeDiff (content : List Char) : Bool :=
  pyStartswith "diff --git".toList (pyStrip content)
    || pyStartswith "--- a/".toList (pyStrip content)

/-- The fallback branch of `request_patch_from_llm` (agent.py lines 277-279):
return the whole response unchanged if it looks like a diff, else `none`. -/
def diffFallback (content : List Char) : Option (List Char) :=
  if looksLikeDiff content then some content else none

/-- Does the response contain both marker tokens with the first occurrence of
`PATCH_END` starting strictly after the first occurrence of `PATCH_START`?
This is the condition `start != -1 and end != -1 and end > start` of
agent.py line 273. -/
def markersInOrder (content : List Char) : Bool :=
  match findSub PATCH_START content, findSub PATCH_END content with
  | some s, some e => e > s
  | _, _ => false

/-- The marker-extraction step of `agent.request_patch_from_llm`
(agent.py lines 270-279), applied to the raw provider response `content`:
find the first occurrences of `PATCH_START` and `PATCH_END`; if both exist and
the end marker starts strictly after the begin marker, return the slice
between them stripped of surrounding whitespace; otherwise, if the stripped
response starts with a diff header, return the whole response; otherwise
return `none`. -/
def request_patch_from_llm (content : List Char) : Option (List Char) :=
  match findSub PATCH_START content, findSub PATCH_END content with
  | some s, some e =>
    if e > s then some (pyStrip (pySlice content (s + PATCH_START.length) e))
    else diffFallback content
  | some _, none => diffFallback content
  | none, _ => diffFallback content

/-- The branch cascade of `agent.parse_github_repo` (agent.py lines 81-86)
that computes the `path` variable from the remote URL.  `Except.error`
models a raised Python exception: `ValueError` from tuple unpacking when a
`git@…` URL has no colon, `IndexError` from `[-2]` when an `http…` URL has
fewer than two slashes. -/
def repoPath (remote_url : List Char) : Except Unit (List Char) :=
  if pyStartswith "git@".toList remote_url then
    match pySplitOnce ':' remote_url with
    | some (_, p) => Except.ok p
    | none => Except.error ()
  else if pyStartswith "http".toList remote_url then
    match pyGetNeg (pyRsplit '/' 2 remote_url) 2,
          pyGetNeg (pyRsplit '/' 1 remote_url) 1 with
    | Except.ok a, Except.ok b => Except.ok (a ++ '/' :: b)
    | Except.error e, _ => Except.error e
    | _, Except.error e => Except.error e
  else Except.ok remote_url

/-- The tail of `agent.parse_github_repo` (agent.py lines 87-93): strip a
leading `/`, strip a trailing `.git`, and split the remainder at its first
`/` into `(owner, repo)`; `none` when there is no slash. -/
def stripRepoPath (path0 : List Char) : Option (List Char × List Char) :=
  let path1 := pyDropLeading "/".toList path0
  let path2 :=
    if pyEndswith ".git".toList path1 then path1.take (path1.length - 4)
    else path1
  match pySplitOnce '/' path2 with
  | some (owner, repo) => some (owner, repo)
  | none => none

/-- `agent.parse_github_repo` (agent.py lines 79-93): compute the path from
the URL shape, then split it into `(owner, repo)`.  `Except.error` models a
raised Python exception; `Except.ok none` models the `return None` path. -/
def parse_github_repo (remote_url : List Char) :
    Except Unit (Option (List Char × List Char)) :=
  match repoPath remote_url with
  | Except.error e => Except.error e
  | Except.ok path0 => Except.ok (stripRepoPath path0)

/-- A persona record from `personas.json`: `{id, name, role_prompt}`. -/
structure Persona where
  id : List Char
  name : List Char
  role : List Char
  deriving DecidableEq, Repr

/-- The command-line flags of `auto_develop.run_loop`. -/
structure Config where
  use_llm : Bool
  apply : Bool
  push : Bool
  pr : Bool
  dry_run : Bool
  deriving DecidableEq, Repr

/-- Behaviour of the `request_patch_from_llm` call for one persona:
either the call raises (the orchestrator catches the exception and keeps
`patch = None`), or the provider returns raw `content`, to which the
marker extraction of `request_patch_from_llm` is applied. -/
inductive LlmBehavior where
  | raises : LlmBehavior
  | returns (content : List Char) : LlmBehavior
  deriving DecidableEq, Repr

/-- Environment for one persona iteration: the provider behaviour and the
outcomes of the external git commands.  `branchOk` is the outcome of
`git checkout -b`; `run_loop` never inspects it.  `gitApplyOk` is the exit
status of `git apply --index`. -/
structure PersonaEnv where
  llm : LlmBehavior
  branchOk : Bool
  gitApplyOk : Bool
  commitOk : Bool
  pushOk : Bool
  deriving DecidableEq, Repr

/-- External calls made by `run_loop`, in order. -/
inductive Event where
  | createBranch (branch : List Char) : Event
  | gitApply (patch : List Char) : Event
  | commitAll (message : List Char) : Event
  | gitPush (branch : List Char) : Event
  | runTests : Event
  | createPr (branch : List Char) : Event
  deriving DecidableEq, Repr

/-- The branch name built at auto_develop.py line 60:
`f"agent/{pid}/{timestamp()}"`, with `ts` the value returned by the
`timestamp()` call made at that point. -/
def mkBranch (pid ts : List Char) : List Char :=
  "agent/".toList ++ pid ++ '/' :: ts

/-- The commit message built at auto_develop.py line 67:
`f"agent({pid}): {task}"`. -/
def commitMsg (pid task : List Char) : List Char :=
  "agent(".toList ++ pid ++ "): ".toList ++ task

/-- `agent.apply_patch` (agent.py lines 282-291): returns `false` without
invoking git when the patch text is falsy, otherwise materialises the patch
and invokes `git apply --index`, whose exit status is `gitApplyOk`.
Returns the events emitted and the boolean result. -/
def apply_patch (patch : List Char) (gitApplyOk : Bool) : List Event × Bool :=
  if patch.isEmpty then ([], false)
  else ([Event.gitApply patch], gitApplyOk)

/-- The value of the `patch` variable after auto_develop.py lines 46-51:
`None` unless `--use-llm` was given; the result of `request_patch_from_llm`
when the provider call returns; `None` when it raises (the exception is
caught and logged). -/
def extractedPatch (cfg : Config) (env : PersonaEnv) : Option (List Char) :=
  if cfg.use_llm then
    match env.llm with
    | LlmBehavior.raises => none
    | LlmBehavior.returns content => request_patch_from_llm content
  else none

/-- One iteration of the `for p in personas` body of `auto_develop.run_loop`
(auto_develop.py lines 40-69), for persona `p` with environment `env` and
`timestamp()` result `ts`.  Returns the events this iteration emits and
`some branch` when line 61 (`last_branch = branch`) was reached. -/
def personaStep (cfg : Config) (task : List Char) (env : PersonaEnv)
    (ts : List Char) (p : Persona) : List Event × Option (List Char) :=
  let patch := extractedPatch cfg env
  if !optTruthy patch then ([], none)
  else if cfg.dry_run || !cfg.apply then ([], none)
  else
    let branch := mkBranch p.id ts
    let applied := apply_patch (patch.getD []) env.gitApplyOk
    if !applied.2 then
      (Event.createBranch branch :: applied.1, some branch)
    else
      (Event.createBranch branch :: applied.1 ++
        Event.commitAll (commitMsg p.id task) ::
          (if cfg.push then [Event.gitPush branch] else []),
        some branch)

/-- One persona together with its environment and the value its
`timestamp()` call returns. -/
abbrev Item : Type := Persona × PersonaEnv × List Char

/-- Update of the `last_branch` variable after one persona iteration
(auto_develop.py line 61): it is overwritten when the iteration reached
branch creation, and kept otherwise. -/
def updateLast (step last : Option (List Char)) : Option (List Char) :=
  match step with
  | some b => some b
  | none => last

/-- The persona loop of `run_loop` (auto_develop.py lines 40-69), threading
the `last_branch` variable; returns the emitted events and the final
`last_branch`. -/
def run_loop_aux (cfg : Config) (task : List Char) :
    List Item → Option (List Char) → List Event × Option (List Char)
  | [], last => ([], last)
  | (p, env, ts) :: rest, last =>
    let step := personaStep cfg task env ts p
    let r := run_loop_aux cfg task rest (updateLast step.2 last)
    (step.1 ++ r.1, r.2)

/-- Aggregate result of one run. -/
structure RunResult where
  trace : List Event
  tests_ok : Bool
  deriving DecidableEq, Repr

/-- `auto_develop.run_loop` (auto_develop.py lines 37-79): run the persona
loop, then (unless dry-run) run the test suite once, then (when the tests
passed, `--pr` and `--push` were given, and `last_branch` is truthy) invoke
`create_github_pr` once on `last_branch`.  `testsOk` is the result the
external test runner would report. -/
def run_loop (cfg : Config) (task : List Char) (items : List Item)
    (testsOk : Bool) : RunResult :=
  let loop := run_loop_aux cfg task items none
  let tests_ok := if cfg.dry_run then true else testsOk
  let trace := loop.1
    ++ (if cfg.dry_run then [] else [Event.runTests])
    ++ (if tests_ok && cfg.pr && cfg.push && optTruthy loop.2 then
          [Event.createPr (loop.2.getD [])]
        else [])
  ⟨trace, tests_ok⟩

/-- Is this event an invocation of the test suite? -/
def isTestEvent : Event → Bool
  | Event.runTests => true
  | _ => false

/-- Is this event an invocation of `create_github_pr`? -/
def isPrEvent : Event → Bool
  | Event.createPr _ => true
  | _ => false

/-- Is this event an invocation of `git apply`? -/
def isApplyEvent : Event → Bool
  | Event.gitApply _ => true
  | _ => false

/-- Is this event a repository mutation (branch creation, patch
application, commit, or push)? -/
def isMutation : Event → Bool
  | Event.createBranch _ => true
  | Event.gitApply _ => true
  | Event.commitAll _ => true
  | Event.gitPush _ => true
  | _ => false

/-- The branch argument of a `createBranch` event. -/
def branchOf : Event → Option (List Char)
  | Event.createBranch b => some b
  | _ => none

/-- All branches created in a trace, in order. -/
def branchesOf (tr : List Event) : List (List Char) :=
  tr.filterMap branchOf

/-- The branch of the most recent `createBranch` event of a trace. -/
def lastCreatedBranch (tr : List Event) : Option (List Char) :=
  (branchesOf tr).getLast?

/-! Section: Example fixtures used by witnesses and counterexamples -/

/-- A sample task description. -/
def exTask : List Char := "add greeting file".toList

/-- A sample `timestamp()` value (14 digits, as `%Y%m%d%H%M%S` produces). -/
def exTs : List Char := "20250101000000".toList

/-- A second sample `timestamp()` value. -/
def exTs2 : List Char := "20250101000001".toList

/-- A third sample `timestamp()` value. -/
def exTs3 : List Char := "20250101000002".toList

/-- A sample persona. -/
def exPersonaA : Persona := ⟨"alpha".toList, "Alpha".toList, "role".toList⟩

/-- Another sample persona. -/
def exPersonaB : Persona := ⟨"beta".toList, "Beta".toList, "role".toList⟩

/-- A third sample persona. -/
def exPersonaC : Persona := ⟨"gamma".toList, "Gamma".toList, "role".toList⟩

/-- A provider response that follows the marker protocol. -/
def exPatchResponse : List Char :=
  "PATCH_START\ndiff --git a/x b/x\nPATCH_END".toList

/-- Environment where every external command succeeds. -/
def envGood : PersonaEnv :=
  ⟨LlmBehavior.returns exPatchResponse, true, true, true, true⟩

/-- Environment where `git apply` fails. -/
def envApplyFail : PersonaEnv :=
  ⟨LlmBehavior.returns exPatchResponse, true, false, true, true⟩

/-- Environment where `git checkout -b` fails (everything else succeeds). -/
def envBranchFail : PersonaEnv :=
  ⟨LlmBehavior.returns exPatchResponse, false, true, true, true⟩

/-- Flags: `--use-llm --apply --push --pr`, no dry-run. -/
def cfgFull : Config := ⟨true, true, true, true, false⟩

/-- Flags: `--use-llm --apply --push --pr --dry-run`. -/
def cfgDry : Config := ⟨true, true, true, true, true⟩

/-! Section: General lemmas about the embedding -/

theorem pyStrip_of_all_space (s : List Char) (h : s.all pyIsSpace = true) :
    pyStrip s = [] := by
  have h' : ∀ c ∈ s, pyIsSpace c = true := by
    simpa [List.all_eq_true] using h
  have h1 : s.dropWhile pyIsSpace = [] := List.dropWhile_eq_nil_iff.mpr h'
  simp [pyStrip, h1]

theorem extract_of_markers (content : List Char) (i j : Nat)
    (hs : findSub PATCH_START content = some i)
    (he : findSub PATCH_END content = some j) (hij : i < j) :
    request_patch_from_llm content
      = some (pyStrip (pySlice content (i + PATCH_START.length) j)) := by
  unfold request_patch_from_llm
  rw [hs, he]
  simp [hij]

theorem extract_of_no_markers (content : List Char)
    (hm : markersInOrder content = false) (hd : looksLikeDiff content = false) :
    request_patch_from_llm content = none := by
  unfold markersInOrder at hm
  unfold request_patch_from_llm
  cases hfs : findSub PATCH_START content with
  | none => simp [diffFallback, hd]
  | some s =>
    cases hfe : findSub PATCH_END content with
    | none => simp [diffFallback, hd]
    | some e =>
      rw [hfs, hfe] at hm
      have hm' : ¬ e > s := of_decide_eq_false hm
      show (if e > s then some (pyStrip (pySlice content (s + PATCH_START.length) e))
            else diffFallback content) = none
      rw [if_neg hm']
      simp [diffFallback, hd]

theorem personaStep_of_patch_falsy (cfg : Config) (task : List Char)
    (env : PersonaEnv) (ts : List Char) (p : Persona)
    (h : optTruthy (extractedPatch cfg env) = false) :
    personaStep cfg task env ts p = ([], none) := by
  unfold personaStep
  simp [h]

theorem run_loop_aux_cons (cfg : Config) (task : List Char) (p : Persona)
    (env : PersonaEnv) (ts : List Char) (rest : List Item)
    (last : Option (List Char)) :
    run_loop_aux cfg task ((p, env, ts) :: rest) last
      = ((personaStep cfg task env ts p).1
          ++ (run_loop_aux cfg task rest
                (updateLast (personaStep cfg task env ts p).2 last)).1,
         (run_loop_aux cfg task rest
            (updateLast (personaStep cfg task env ts p).2 last)).2) := rfl

theorem run_loop_aux_skip (cfg : Config) (task : List Char) (p : Persona)
    (env : PersonaEnv) (ts : List Char) (rest : List Item)
    (last : Option (List Char))
    (h : personaStep cfg task env ts p = ([], none)) :
    run_loop_aux cfg task ((p, env, ts) :: rest) last
      = run_loop_aux cfg task rest last := by
  rw [run_loop_aux_cons, h]
  simp [updateLast]

/-! Section: Claims about patch extraction -/

/-- C5: whenever the first occurrence of `PATCH_START` precedes the first
occurrence of `PATCH_END`, extraction returns the substring strictly between
the two markers with surrounding whitespace trimmed; in particular, on
`"noise PATCH_START\nDIFFTEXT\nPATCH_END more noise"` it returns exactly
`"DIFFTEXT"`. -/
theorem extract_between_markers (content : List Char) (i j : Nat)
    (hs : findSub PATCH_START content = some i)
    (he : findSub PATCH_END content = some j) (hij : i < j) :
    request_patch_from_llm content
      = some (pyStrip (pySlice content (i + PATCH_START.length) j))
    ∧ request_patch_from_llm
        "noise PATCH_START\nDIFFTEXT\nPATCH_END more noise".toList
      = some "DIFFTEXT".toList :=
  ⟨extract_of_markers content i j hs he hij, by decide⟩

/-- Witness for C5: the hypotheses hold on the spec's own example response,
with the begin marker at index 6 and the end marker at index 27. -/
theorem extract_between_markers_witness :
    (findSub PATCH_START
        "noise PATCH_START\nDIFFTEXT\nPATCH_END more noise".toList = some 6
      ∧ findSub PATCH_END
          "noise PATCH_START\nDIFFTEXT\nPATCH_END more noise".toList = some 27
      ∧ 6 < 27)
    ∧ request_patch_from_llm
        "noise PATCH_START\nDIFFTEXT\nPATCH_END more noise".toList
      = some (pyStrip (pySlice
          "noise PATCH_START\nDIFFTEXT\nPATCH_END more noise".toList
          (6 + PATCH_START.length) 27)) :=
  ⟨⟨by decide, by decide, by decide⟩,
    (extract_between_markers _ 6 27 (by decide) (by decide) (by decide)).1⟩

/-- C6: when the response neither contains the two markers in valid order nor
looks like a diff, extraction returns `none`; the orchestrator then emits no
events for that persona, does not touch `last_branch`, and the loop goes on
with the remaining personas exactly as if this persona were absent. -/
theorem extract_none_skips_persona (content : List Char) (cfg : Config)
    (task : List Char) (env : PersonaEnv) (ts : List Char) (p : Persona)
    (rest : List Item) (last : Option (List Char))
    (hm : markersInOrder content = false) (hd : looksLikeDiff content = false)
    (hllm : env.llm = LlmBehavior.returns content) :
    request_patch_from_llm content = none
    ∧ personaStep cfg task env ts p = ([], none)
    ∧ run_loop_aux cfg task ((p, env, ts) :: rest) last
        = run_loop_aux cfg task rest last := by
  have hex : request_patch_from_llm content = none := extract_of_no_markers content hm hd
  have hstep : personaStep cfg task env ts p = ([], none) := by
    apply personaStep_of_patch_falsy
    unfold extractedPatch
    cases cfg.use_llm
    · simp [optTruthy]
    · rw [hllm]
      simp [hex, optTruthy]
  exact ⟨hex, hstep, run_loop_aux_skip cfg task p env ts rest last hstep⟩

/-- Witness for C6: a marker-free, non-diff response (`"hello world"`) under
the full flag set. -/
theorem extract_none_skips_persona_witness :
    (markersInOrder "hello world".toList = false
      ∧ looksLikeDiff "hello world".toList = false
      ∧ PersonaEnv.llm ⟨LlmBehavior.returns "hello world".toList,
          true, true, true, true⟩ = LlmBehavior.returns "hello world".toList)
    ∧ request_patch_from_llm "hello world".toList = none
    ∧ personaStep cfgFull exTask
        ⟨LlmBehavior.returns "hello world".toList, true, true, true, true⟩
        exTs exPersonaA = ([], none)
    ∧ run_loop_aux cfgFull exTask
        [(exPersonaA,
          ⟨LlmBehavior.returns "hello world".toList, true, true, true, true⟩,
          exTs), (exPersonaB, envGood, exTs2)] none
      = run_loop_aux cfgFull exTask [(exPersonaB, envGood, exTs2)] none :=
  ⟨⟨by decide, by decide, rfl⟩,
    extract_none_skips_persona "hello world".toList cfgFull exTask
      ⟨LlmBehavior.returns "hello world".toList, true, true, true, true⟩
      exTs exPersonaA [(exPersonaB, envGood, exTs2)] none
      (by decide) (by decide) rfl⟩

/-- C10: when the material between the begin marker and the end marker is
whitespace only, extraction returns the empty string, which the orchestrator
treats exactly like "no patch": the persona is skipped with no branch
creation, apply, commit, or push, and the loop goes on. -/
theorem empty_patch_skips_persona (content : List Char) (cfg : Config)
    (task : List Char) (env : PersonaEnv) (ts : List Char) (p : Persona)
    (rest : List Item) (last : Option (List Char)) (i j : Nat)
    (hs : findSub PATCH_START content = some i)
    (he : findSub PATCH_END content = some j) (hij : i < j)
    (hws : (pySlice content (i + PATCH_START.length) j).all pyIsSpace = true)
    (hllm : env.llm = LlmBehavior.returns content) :
    request_patch_from_llm content = some []
    ∧ personaStep cfg task env ts p = ([], none)
    ∧ run_loop_aux cfg task ((p, env, ts) :: rest) last
        = run_loop_aux cfg task rest last := by
  have hex : request_patch_from_llm content = some [] := by
    rw [extract_of_markers content i j hs he hij,
      pyStrip_of_all_space _ hws]
  have hstep : personaStep cfg task env ts p = ([], none) := by
    apply personaStep_of_patch_falsy
    unfold extractedPatch
    cases cfg.use_llm
    · simp [optTruthy]
    · rw [hllm]
      simp [hex, optTruthy]
  exact ⟨hex, hstep, run_loop_aux_skip cfg task p env ts rest last hstep⟩

/-- Witness for C10: the response `"PATCH_START\nPATCH_END"`, whose
inter-marker material is a single newline. -/
theorem empty_patch_skips_persona_witness :
    (findSub PATCH_START "PATCH_START\nPATCH_END".toList = some 0
      ∧ findSub PATCH_END "PATCH_START\nPATCH_END".toList = some 12
      ∧ 0 < 12
      ∧ (pySlice "PATCH_START\nPATCH_END".toList
          (0 + PATCH_START.length) 12).all pyIsSpace = true)
    ∧ request_patch_from_llm "PATCH_START\nPATCH_END".toList = some []
    ∧ personaStep cfgFull exTask
        ⟨LlmBehavior.returns "PATCH_START\nPATCH_END".toList,
          true, true, true, true⟩ exTs exPersonaA = ([], none)
    ∧ run_loop_aux cfgFull exTask
        [(exPersonaA,
          ⟨LlmBehavior.returns "PATCH_START\nPATCH_END".toList,
            true, true, true, true⟩, exTs)] none
      = run_loop_aux cfgFull exTask [] none :=
  ⟨⟨by decide, by decide, by decide, by decide⟩,
    empty_patch_skips_persona "PATCH_START\nPATCH_END".toList cfgFull exTask
      ⟨LlmBehavior.returns "PATCH_START\nPATCH_END".toList,
        true, true, true, true⟩ exTs exPersonaA [] none 0 12
      (by decide) (by decide) (by decide) (by decide) rfl⟩

/-! Section: Structural lemmas about the persona loop -/

theorem personaStep_of_dry_or_noapply (cfg : Config) (task : List Char)
    (env : PersonaEnv) (ts : List Char) (p : Persona)
    (h : (cfg.dry_run || !cfg.apply) = true) :
    personaStep cfg task env ts p = ([], none) := by
  unfold personaStep
  by_cases h1 : optTruthy (extractedPatch cfg env) <;> simp [h, h1]

theorem branchesOf_apply_patch (s : List Char) (ok : Bool) :
    branchesOf (apply_patch s ok).1 = [] := by
  unfold apply_patch
  split <;> simp [branchesOf, branchOf]

theorem personaStep_shape (cfg : Config) (task : List Char) (env : PersonaEnv)
    (ts : List Char) (p : Persona) :
    personaStep cfg task env ts p = ([], none)
    ∨ ∃ evs, personaStep cfg task env ts p
        = (Event.createBranch (mkBranch p.id ts) :: evs,
           some (mkBranch p.id ts))
      ∧ branchesOf evs = [] := by
  simp only [personaStep]
  split
  · left; rfl
  · split
    · left; rfl
    · right
      split
      · exact ⟨_, rfl, branchesOf_apply_patch _ _⟩
      · refine ⟨_, rfl, ?_⟩
        unfold apply_patch
        split <;> split <;> simp [branchesOf, branchOf]

theorem personaStep_event_kinds (cfg : Config) (task : List Char)
    (env : PersonaEnv) (ts : List Char) (p : Persona) :
    ∀ e ∈ (personaStep cfg task env ts p).1,
      isTestEvent e = false ∧ isPrEvent e = false := by
  intro e he
  simp only [personaStep, apply_patch] at he
  repeat' split at he
  all_goals cases e <;> simp_all [isTestEvent, isPrEvent]

theorem run_loop_aux_event_kinds (cfg : Config) (task : List Char) :
    ∀ (items : List Item) (last : Option (List Char)),
      ∀ e ∈ (run_loop_aux cfg task items last).1,
        isTestEvent e = false ∧ isPrEvent e = false := by
  intro items
  induction items with
  | nil => intro last e he; simp [run_loop_aux] at he
  | cons it rest ih =>
    obtain ⟨p, env, ts⟩ := it
    intro last e he
    rw [run_loop_aux_cons] at he
    rcases List.mem_append.mp he with h | h
    · exact personaStep_event_kinds cfg task env ts p e h
    · exact ih _ e h

theorem run_loop_aux_filter_test (cfg : Config) (task : List Char)
    (items : List Item) (last : Option (List Char)) :
    (run_loop_aux cfg task items last).1.filter isTestEvent = [] := by
  rw [List.filter_eq_nil_iff]
  intro e he
  simp [(run_loop_aux_event_kinds cfg task items last e he).1]

theorem run_loop_aux_filter_pr (cfg : Config) (task : List Char)
    (items : List Item) (last : Option (List Char)) :
    (run_loop_aux cfg task items last).1.filter isPrEvent = [] := by
  rw [List.filter_eq_nil_iff]
  intro e he
  simp [(run_loop_aux_event_kinds cfg task items last e he).2]

theorem updateLast_none (x : Option (List Char)) : updateLast x none = x := by
  cases x <;> rfl

theorem run_loop_aux_last (cfg : Config) (task : List Char) :
    ∀ (items : List Item) (last : Option (List Char)),
      (run_loop_aux cfg task items last).2
        = updateLast (lastCreatedBranch (run_loop_aux cfg task items last).1)
            last := by
  intro items
  induction items with
  | nil => intro last; simp [run_loop_aux, lastCreatedBranch, branchesOf, updateLast]
  | cons it rest ih =>
    obtain ⟨p, env, ts⟩ := it
    intro last
    rw [run_loop_aux_cons]
    rcases personaStep_shape cfg task env ts p with h | ⟨evs, h, hb⟩
    · rw [h]
      show (run_loop_aux cfg task rest last).2
        = updateLast (lastCreatedBranch (([] : List Event)
            ++ (run_loop_aux cfg task rest last).1)) last
      rw [List.nil_append, ih]
    · rw [h]
      show (run_loop_aux cfg task rest (some (mkBranch p.id ts))).2
        = updateLast (lastCreatedBranch
            ((Event.createBranch (mkBranch p.id ts) :: evs)
              ++ (run_loop_aux cfg task rest (some (mkBranch p.id ts))).1))
            last
      rw [ih]
      have hb' : List.filterMap branchOf evs = [] := hb
      have hcat : branchesOf ((Event.createBranch (mkBranch p.id ts) :: evs)
          ++ (run_loop_aux cfg task rest (some (mkBranch p.id ts))).1)
          = mkBranch p.id ts
              :: branchesOf (run_loop_aux cfg task rest
                    (some (mkBranch p.id ts))).1 := by
        simp [branchesOf, branchOf, hb']
      unfold lastCreatedBranch
      rw [hcat]
      cases hbr : branchesOf (run_loop_aux cfg task rest
          (some (mkBranch p.id ts))).1 with
      | nil => simp [updateLast]
      | cons x L =>
        obtain ⟨y, hy⟩ : ∃ y, (x :: L).getLast? = some y := by
          cases hL : (x :: L).getLast? with
          | none => simp at hL
          | some y => exact ⟨y, rfl⟩
        rw [List.getLast?_cons_cons]
        rw [hy]
        rfl

theorem run_loop_aux_branch_mem (cfg : Config) (task : List Char) :
    ∀ (items : List Item) (last : Option (List Char)) (b : List Char),
      b ∈ branchesOf (run_loop_aux cfg task items last).1 →
      ∃ it ∈ items, b = mkBranch it.1.id it.2.2 := by
  intro items
  induction items with
  | nil => intro last b hb; simp [run_loop_aux, branchesOf] at hb
  | cons it rest ih =>
    obtain ⟨p, env, ts⟩ := it
    intro last b hb
    rw [run_loop_aux_cons] at hb
    rw [branchesOf, List.filterMap_append, ← branchesOf, ← branchesOf] at hb
    rcases List.mem_append.mp hb with h | h
    · rcases personaStep_shape cfg task env ts p with hs | ⟨evs, hs, hbb⟩
      · rw [hs] at h; simp [branchesOf] at h
      · rw [hs] at h
        rw [branchesOf, List.filterMap_cons] at h
        rw [← branchesOf, hbb] at h
        simp only [branchOf] at h
        rcases List.mem_cons.mp h with h' | h'
        · exact ⟨(p, env, ts), List.mem_cons_self _ _, h'⟩
        · simp at h'
    · obtain ⟨it, hit, heq⟩ := ih _ b h
      exact ⟨it, List.mem_cons_of_mem _ hit, heq⟩

theorem mkBranch_ne_nil (pid ts : List Char) : mkBranch pid ts ≠ [] := by
  unfold mkBranch
  intro h
  rw [List.append_eq_nil] at h
  exact absurd h.2 (by simp)

theorem personaStep_of_dry (cfg : Config) (task : List Char) (env : PersonaEnv)
    (ts : List Char) (p : Persona) (h : cfg.dry_run = true) :
    personaStep cfg task env ts p = ([], none) :=
  personaStep_of_dry_or_noapply cfg task env ts p (by simp [h])

theorem run_loop_aux_of_dry (cfg : Config) (task : List Char)
    (h : cfg.dry_run = true) :
    ∀ (items : List Item) (last : Option (List Char)),
      run_loop_aux cfg task items last = ([], last) := by
  intro items
  induction items with
  | nil => intro last; rfl
  | cons it rest ih =>
    obtain ⟨p, env, ts⟩ := it
    intro last
    rw [run_loop_aux_skip cfg task p env ts rest last
      (personaStep_of_dry cfg task env ts p h), ih]

theorem optTruthy_run_loop_aux (cfg : Config) (task : List Char)
    (items : List Item) :
    optTruthy (run_loop_aux cfg task items none).2
      = ((run_loop_aux cfg task items none).2).isSome := by
  cases hb : (run_loop_aux cfg task items none).2 with
  | none => rfl
  | some b =>
    have hlast : some b
        = lastCreatedBranch (run_loop_aux cfg task items none).1 := by
      rw [← hb, run_loop_aux_last, updateLast_none]
    have hx : b ∈ (branchesOf (run_loop_aux cfg task items none).1).getLast? := by
      unfold lastCreatedBranch at hlast
      exact Option.mem_def.mpr hlast.symm
    obtain ⟨hne, hbeq⟩ := List.mem_getLast?_eq_getLast hx
    have hmem : b ∈ branchesOf (run_loop_aux cfg task items none).1 :=
      hbeq ▸ List.getLast_mem hne
    obtain ⟨it, _, heq⟩ :=
      run_loop_aux_branch_mem cfg task items none b hmem
    cases hbv : b with
    | nil => exact absurd (hbv ▸ heq).symm (mkBranch_ne_nil _ _)
    | cons c cs => rfl

/-! Section: Claims about the persona loop -/

/-- C1: in every non-dry run the test suite is invoked exactly once, and only
after the whole persona loop: the run trace is the persona-loop events (which
contain no test invocation, whatever the personas did) followed by a single
`runTests`, followed by a tail that contains no test invocation either. -/
theorem run_tests_once_after_loop (cfg : Config) (task : List Char)
    (items : List Item) (testsOk : Bool) (h : cfg.dry_run = false) :
    (run_loop cfg task items testsOk).trace.filter isTestEvent
      = [Event.runTests]
    ∧ ∃ post,
        (run_loop cfg task items testsOk).trace
          = (run_loop_aux cfg task items none).1 ++ Event.runTests :: post
        ∧ (run_loop_aux cfg task items none).1.filter isTestEvent = []
        ∧ post.filter isTestEvent = [] := by
  constructor
  · unfold run_loop
    rw [h]
    simp only [Bool.false_eq_true, if_false, List.filter_append,
      run_loop_aux_filter_test, List.nil_append]
    split <;> simp [isTestEvent]
  · refine ⟨(if testsOk && cfg.pr && cfg.push
        && optTruthy (run_loop_aux cfg task items none).2 then
          [Event.createPr ((run_loop_aux cfg task items none).2.getD [])]
        else []), ?_, run_loop_aux_filter_test cfg task items none, ?_⟩
    · unfold run_loop
      rw [h]
      simp [List.append_assoc]
    · split <;> simp [isTestEvent]

/-- Witness for C1: three personas (the middle one failing `git apply`) in a
non-dry run. -/
theorem run_tests_once_after_loop_witness :
    cfgFull.dry_run = false
    ∧ ((run_loop cfgFull exTask
          [(exPersonaA, envGood, exTs), (exPersonaB, envApplyFail, exTs2),
            (exPersonaC, envGood, exTs3)] true).trace.filter isTestEvent
        = [Event.runTests]
      ∧ ∃ post,
          (run_loop cfgFull exTask
            [(exPersonaA, envGood, exTs), (exPersonaB, envApplyFail, exTs2),
              (exPersonaC, envGood, exTs3)] true).trace
            = (run_loop_aux cfgFull exTask
                [(exPersonaA, envGood, exTs), (exPersonaB, envApplyFail, exTs2),
                  (exPersonaC, envGood, exTs3)] none).1
              ++ Event.runTests :: post
          ∧ (run_loop_aux cfgFull exTask
              [(exPersonaA, envGood, exTs), (exPersonaB, envApplyFail, exTs2),
                (exPersonaC, envGood, exTs3)] none).1.filter isTestEvent = []
          ∧ post.filter isTestEvent = []) :=
  ⟨rfl, run_tests_once_after_loop cfgFull exTask
    [(exPersonaA, envGood, exTs), (exPersonaB, envApplyFail, exTs2),
      (exPersonaC, envGood, exTs3)] true rfl⟩

/-- C2: when `apply_patch` reports failure for a persona, that persona's
iteration emits exactly the branch creation and the failed apply — no commit,
no push, and nothing after the failed apply (no rollback) — while `last_branch`
is still recorded and the loop continues with the remaining personas. -/
theorem apply_failure_skips_commit_and_push (cfg : Config) (task : List Char)
    (env : PersonaEnv) (ts : List Char) (p : Persona) (rest : List Item)
    (last : Option (List Char))
    (happ : (personaStep cfg task env ts p).1.any isApplyEvent = true)
    (hfail : env.gitApplyOk = false) :
    ∃ b patchTxt,
      personaStep cfg task env ts p
        = ([Event.createBranch b, Event.gitApply patchTxt], some b)
      ∧ run_loop_aux cfg task ((p, env, ts) :: rest) last
        = ([Event.createBranch b, Event.gitApply patchTxt]
            ++ (run_loop_aux cfg task rest (some b)).1,
           (run_loop_aux cfg task rest (some b)).2) := by
  by_cases h1 : optTruthy (extractedPatch cfg env) = true
  case neg =>
    rw [personaStep_of_patch_falsy cfg task env ts p
      (by simpa using h1)] at happ
    simp at happ
  by_cases h2 : (cfg.dry_run || !cfg.apply) = true
  · rw [personaStep_of_dry_or_noapply cfg task env ts p h2] at happ
    simp at happ
  obtain ⟨s, hp, hsne⟩ :
      ∃ s, extractedPatch cfg env = some s ∧ s.isEmpty = false := by
    cases hp : extractedPatch cfg env with
    | none => rw [hp] at h1; simp [optTruthy] at h1
    | some s =>
      refine ⟨s, rfl, ?_⟩
      rw [hp] at h1
      simpa [optTruthy] using h1
  have h2' : (cfg.dry_run || !cfg.apply) = false := by simpa using h2
  have hstep : personaStep cfg task env ts p
      = ([Event.createBranch (mkBranch p.id ts), Event.gitApply s],
         some (mkBranch p.id ts)) := by
    unfold personaStep
    rw [hp]
    simp [optTruthy, hsne, h2', apply_patch, hfail]
  refine ⟨mkBranch p.id ts, s, hstep, ?_⟩
  rw [run_loop_aux_cons, hstep]
  rfl

/-- Witness for C2: a persona whose provider returned a well-formed patch but
whose `git apply` fails, followed by one more persona. -/
theorem apply_failure_skips_commit_and_push_witness :
    ((personaStep cfgFull exTask envApplyFail exTs exPersonaA).1.any
        isApplyEvent = true
      ∧ envApplyFail.gitApplyOk = false)
    ∧ ∃ b patchTxt,
        personaStep cfgFull exTask envApplyFail exTs exPersonaA
          = ([Event.createBranch b, Event.gitApply patchTxt], some b)
        ∧ run_loop_aux cfgFull exTask
            ((exPersonaA, envApplyFail, exTs)
              :: [(exPersonaB, envGood, exTs2)]) none
          = ([Event.createBranch b, Event.gitApply patchTxt]
              ++ (run_loop_aux cfgFull exTask
                    [(exPersonaB, envGood, exTs2)] (some b)).1,
             (run_loop_aux cfgFull exTask
                [(exPersonaB, envGood, exTs2)] (some b)).2) :=
  ⟨⟨by decide, rfl⟩,
    apply_failure_skips_commit_and_push cfgFull exTask envApplyFail exTs
      exPersonaA [(exPersonaB, envGood, exTs2)] none (by decide) rfl⟩

/-- C4 counterexample: the claim "if `create_branch` fails, no patch apply is
attempted for that persona" is false on the code: `run_loop` never inspects
the result of `create_branch`, so with a failing `git checkout -b`
(`branchOk = false`) the apply step is still invoked. -/
theorem create_branch_failure_cex :
    envBranchFail.branchOk = false
    ∧ (personaStep cfgFull exTask envBranchFail exTs exPersonaA).1.any
        isApplyEvent = true :=
  ⟨rfl, by decide⟩

/-- C4 amended: `run_loop` ignores the outcome of `create_branch` entirely —
a persona's iteration is identical whether branch creation succeeded or
failed, and the outer loop continues in either case. -/
theorem create_branch_result_ignored (cfg : Config) (task : List Char)
    (env : PersonaEnv) (ts : List Char) (p : Persona) (b : Bool)
    (rest : List Item) (last : Option (List Char)) :
    personaStep cfg task { env with branchOk := b } ts p
      = personaStep cfg task env ts p
    ∧ (run_loop_aux cfg task ((p, { env with branchOk := b }, ts) :: rest)
        last).1
      = (personaStep cfg task env ts p).1
        ++ (run_loop_aux cfg task rest
              (updateLast (personaStep cfg task env ts p).2 last)).1 := by
  have hsame : personaStep cfg task { env with branchOk := b } ts p
      = personaStep cfg task env ts p := by
    cases env
    rfl
  refine ⟨hsame, ?_⟩
  rw [run_loop_aux_cons, hsame]

/-- C7: in dry-run mode the run emits no external events at all — no branch
creation, no patch application, no commit, no push (and no test execution or
PR creation either), for any number of personas and any provider responses. -/
theorem dry_run_no_mutation (cfg : Config) (task : List Char)
    (items : List Item) (testsOk : Bool) (h : cfg.dry_run = true) :
    (run_loop cfg task items testsOk).trace = [] := by
  unfold run_loop
  rw [run_loop_aux_of_dry cfg task h items none, h]
  simp [optTruthy]

/-- Witness for C7: a dry run over two personas whose provider responses are
well-formed patches. -/
theorem dry_run_no_mutation_witness :
    cfgDry.dry_run = true
    ∧ (run_loop cfgDry exTask
        [(exPersonaA, envGood, exTs), (exPersonaB, envApplyFail, exTs2)]
        true).trace = [] :=
  ⟨rfl, dry_run_no_mutation cfgDry exTask
    [(exPersonaA, envGood, exTs), (exPersonaB, envApplyFail, exTs2)]
    true rfl⟩

/-- C3: the PR-publish call appears in the trace exactly when the aggregate
test result is a pass, `--pr` was given, `--push` was given, and some persona
reached branch creation — and then exactly once, on the branch of the most
recent `createBranch` event, regardless of whether that persona's own apply or
commit succeeded. -/
theorem pr_publish_once_iff_conditions (cfg : Config) (task : List Char)
    (items : List Item) (testsOk : Bool) :
    (run_loop cfg task items testsOk).trace.filter isPrEvent
      = (if (run_loop cfg task items testsOk).tests_ok && cfg.pr && cfg.push
            && (lastCreatedBranch
                  (run_loop cfg task items testsOk).trace).isSome
         then [Event.createPr ((lastCreatedBranch
                  (run_loop cfg task items testsOk).trace).getD [])]
         else []) := by
  have h1 : List.filterMap branchOf
      (if cfg.dry_run then ([] : List Event) else [Event.runTests]) = [] := by
    split <;> simp [branchOf]
  have h2pr : List.filterMap branchOf
      (if (if cfg.dry_run then true else testsOk) && cfg.pr && cfg.push
          && optTruthy (run_loop_aux cfg task items none).2 then
        [Event.createPr ((run_loop_aux cfg task items none).2.getD [])]
      else ([] : List Event)) = [] := by
    split <;> split <;> rfl
  have htrbr : branchesOf (run_loop cfg task items testsOk).trace
      = branchesOf (run_loop_aux cfg task items none).1 := by
    unfold run_loop
    simp only [branchesOf, List.filterMap_append, h1, h2pr, List.append_nil]
  have hlast2 : (run_loop_aux cfg task items none).2
      = lastCreatedBranch (run_loop cfg task items testsOk).trace := by
    rw [run_loop_aux_last cfg task items none, updateLast_none]
    unfold lastCreatedBranch
    rw [htrbr]
  have hfl : (run_loop cfg task items testsOk).trace.filter isPrEvent
      = (if (if cfg.dry_run then true else testsOk) && cfg.pr && cfg.push
            && optTruthy (run_loop_aux cfg task items none).2 then
          [Event.createPr ((run_loop_aux cfg task items none).2.getD [])]
        else []) := by
    unfold run_loop
    rw [List.filter_append, List.filter_append, run_loop_aux_filter_pr]
    have hT : (if cfg.dry_run then ([] : List Event)
        else [Event.runTests]).filter isPrEvent = [] := by
      split <;> simp [isPrEvent]
    rw [hT]
    simp only [List.nil_append]
    split <;> simp_all [isPrEvent]
  rw [hfl, optTruthy_run_loop_aux cfg task items, hlast2]
  rfl

/-! Section: The remote-URL parser -/

/-- The SSH form `git@host:owner/repo.git` of a repository remote. -/
def sshUrl (host owner repo : List Char) : List Char :=
  "git@".toList ++ (host ++ (':' :: (owner ++ ('/' :: (repo ++ ".git".toList)))))

/-- The HTTPS form `https://host/owner/repo.git` of a repository remote. -/
def httpsUrl (host owner repo : List Char) : List Char :=
  "https://".toList
    ++ (host ++ ('/' :: (owner ++ ('/' :: (repo ++ ".git".toList)))))

theorem pySplitOnce_append (sep : Char) (pre post : List Char)
    (h : sep ∉ pre) :
    pySplitOnce sep (pre ++ sep :: post) = some (pre, post) := by
  induction pre with
  | nil => simp [pySplitOnce]
  | cons c t ih =>
    have hc : ¬ c = sep := by
      intro hh
      exact h (by rw [hh]; exact List.mem_cons_self _ _)
    rw [List.cons_append]
    unfold pySplitOnce
    rw [if_neg hc, ih (fun hm => h (List.mem_cons_of_mem c hm))]

theorem splitOnceRight_append (sep : Char) (pre post : List Char)
    (h : sep ∉ post) :
    splitOnceRight sep (pre ++ sep :: post) = some (pre, post) := by
  unfold splitOnceRight
  have hrev : (pre ++ sep :: post).reverse
      = post.reverse ++ sep :: pre.reverse := by
    simp
  rw [hrev, pySplitOnce_append sep post.reverse pre.reverse (by simpa using h)]
  simp

theorem isPrefixOf_append_self (l t : List Char) :
    l.isPrefixOf (l ++ t) = true := by
  simp [ List.isPrefixOf_iff_prefix]

theorem pyEndswith_append (suf a : List Char) :
    pyEndswith suf (a ++ suf) = true := by
  unfold pyEndswith
  rw [List.reverse_append]
  exact isPrefixOf_append_self _ _

theorem pyDropLeading_no_slash (c : Char) (t : List Char) (hc : c ≠ '/') :
    pyDropLeading "/".toList (c :: t) = c :: t := by
  unfold pyDropLeading
  rw [if_neg]
  intro hp
  have : ('/' == c && List.isPrefixOf [] t) = true := hp
  simp at this
  exact hc this.symm

theorem stripRepoPath_canonical (owner repo : List Char)
    (h2 : '/' ∉ owner) (h3 : owner ≠ []) :
    stripRepoPath (owner ++ ('/' :: (repo ++ ".git".toList)))
      = some (owner, repo) := by
  obtain ⟨c, o2, rfl⟩ : ∃ c o2, owner = c :: o2 := by
    cases owner with
    | nil => exact absurd rfl h3
    | cons c o2 => exact ⟨c, o2, rfl⟩
  have hc : c ≠ '/' := by
    intro hh
    exact h2 (by rw [hh]; exact List.mem_cons_self _ _)
  have hdl : pyDropLeading "/".toList
      ((c :: o2) ++ ('/' :: (repo ++ ".git".toList)))
      = (c :: o2) ++ ('/' :: (repo ++ ".git".toList)) := by
    rw [List.cons_append, pyDropLeading_no_slash c _ hc, ← List.cons_append]
  have hform : (c :: o2) ++ ('/' :: (repo ++ ".git".toList))
      = ((c :: o2) ++ '/' :: repo) ++ ".git".toList := by
    simp
  have hlen : ((c :: o2) ++ '/' :: repo).length
      = (((c :: o2) ++ '/' :: repo) ++ ".git".toList).length - 4 := by
    simp
    omega
  simp only [stripRepoPath]
  rw [hdl, hform, pyEndswith_append, if_pos rfl,
    List.take_left' hlen, pySplitOnce_append '/' (c :: o2) repo h2]

/-- C8: the remote-URL parser sends the SSH form and the HTTPS form of the
same repository to the same `(owner, repo)` pair, stripping the trailing
`.git`; in particular both `git@github.com:acme/widgets.git` and
`https://github.com/acme/widgets.git` parse to `("acme", "widgets")`. -/
theorem parse_repo_both_forms (host owner repo : List Char)
    (h1 : ':' ∉ host) (h2 : '/' ∉ owner) (h3 : owner ≠ [])
    (h4 : '/' ∉ repo) :
    (parse_github_repo (sshUrl host owner repo)
        = Except.ok (some (owner, repo))
      ∧ parse_github_repo (httpsUrl host owner repo)
        = Except.ok (some (owner, repo)))
    ∧ (parse_github_repo "git@github.com:acme/widgets.git".toList
        = Except.ok (some ("acme".toList, "widgets".toList))
      ∧ parse_github_repo "https://github.com/acme/widgets.git".toList
        = Except.ok (some ("acme".toList, "widgets".toList))) := by
  refine ⟨⟨?_, ?_⟩, rfl, rfl⟩
  · -- SSH form
    have hssh : sshUrl host owner repo
        = ("git@".toList ++ host)
            ++ ':' :: (owner ++ ('/' :: (repo ++ ".git".toList))) := by
      simp [sshUrl]
    have hcolon : ':' ∉ ("git@".toList ++ host) := by
      intro hm
      rcases List.mem_append.mp hm with hm | hm
      · exact absurd hm (by decide)
      · exact h1 hm
    have hsplit : pySplitOnce ':' (sshUrl host owner repo)
        = some ("git@".toList ++ host,
                owner ++ ('/' :: (repo ++ ".git".toList))) := by
      rw [hssh]
      exact pySplitOnce_append ':' _ _ hcolon
    have hstart : pyStartswith "git@".toList (sshUrl host owner repo)
        = true := by
      unfold sshUrl pyStartswith
      exact isPrefixOf_append_self _ _
    have hA : repoPath (sshUrl host owner repo)
        = Except.ok (owner ++ ('/' :: (repo ++ ".git".toList))) := by
      unfold repoPath
      rw [hstart, if_pos rfl, hsplit]
    unfold parse_github_repo
    rw [hA]
    show Except.ok (stripRepoPath (owner ++ ('/' :: (repo ++ ".git".toList))))
        = Except.ok (some (owner, repo))
    rw [stripRepoPath_canonical owner repo h2 h3]
  · -- HTTPS form
    have hpost : '/' ∉ repo ++ ".git".toList := by
      intro hm
      rcases List.mem_append.mp hm with hm | hm
      · exact h4 hm
      · exact absurd hm (by decide)
    have hform1 : httpsUrl host owner repo
        = ("https://".toList ++ (host ++ ('/' :: owner)))
            ++ '/' :: (repo ++ ".git".toList) := by
      simp [httpsUrl]
    have hsr1 : splitOnceRight '/' (httpsUrl host owner repo)
        = some ("https://".toList ++ (host ++ ('/' :: owner)),
                repo ++ ".git".toList) := by
      rw [hform1]
      exact splitOnceRight_append '/' _ _ hpost
    have hform2 : "https://".toList ++ (host ++ ('/' :: owner))
        = ("https://".toList ++ host) ++ '/' :: owner := by
      simp
    have hsr2 : splitOnceRight '/'
        ("https://".toList ++ (host ++ ('/' :: owner)))
        = some ("https://".toList ++ host, owner) := by
      rw [hform2]
      exact splitOnceRight_append '/' _ _ h2
    have hr1in : pyRsplit '/' 1 ("https://".toList ++ (host ++ ('/' :: owner)))
        = ["https://".toList ++ host, owner] := by
      show (match splitOnceRight '/'
              ("https://".toList ++ (host ++ ('/' :: owner))) with
            | none => ["https://".toList ++ (host ++ ('/' :: owner))]
            | some (l, r) => pyRsplit '/' 0 l ++ [r])
          = ["https://".toList ++ host, owner]
      rw [hsr2]
      rfl
    have hr2 : pyRsplit '/' 2 (httpsUrl host owner repo)
        = ["https://".toList ++ host, owner, repo ++ ".git".toList] := by
      show (match splitOnceRight '/' (httpsUrl host owner repo) with
            | none => [httpsUrl host owner repo]
            | some (l, r) => pyRsplit '/' 1 l ++ [r])
          = ["https://".toList ++ host, owner, repo ++ ".git".toList]
      rw [hsr1]
      show pyRsplit '/' 1 ("https://".toList ++ (host ++ ('/' :: owner)))
          ++ [repo ++ ".git".toList]
        = ["https://".toList ++ host, owner, repo ++ ".git".toList]
      rw [hr1in]
      rfl
    have hr1 : pyRsplit '/' 1 (httpsUrl host owner repo)
        = ["https://".toList ++ (host ++ ('/' :: owner)),
           repo ++ ".git".toList] := by
      show (match splitOnceRight '/' (httpsUrl host owner repo) with
            | none => [httpsUrl host owner repo]
            | some (l, r) => pyRsplit '/' 0 l ++ [r])
          = ["https://".toList ++ (host ++ ('/' :: owner)),
             repo ++ ".git".toList]
      rw [hsr1]
      rfl
    have hs1 : pyStartswith "git@".toList (httpsUrl host owner repo)
        = false := by
      unfold httpsUrl pyStartswith
      rfl
    have hs2 : pyStartswith "http".toList (httpsUrl host owner repo)
        = true := by
      unfold httpsUrl pyStartswith
      rfl
    have hg2 : pyGetNeg ["https://".toList ++ host, owner,
        repo ++ ".git".toList] 2 = Except.ok owner := rfl
    have hg1 : pyGetNeg ["https://".toList ++ (host ++ ('/' :: owner)),
        repo ++ ".git".toList] 1 = Except.ok (repo ++ ".git".toList) := rfl
    have hA : repoPath (httpsUrl host owner repo)
        = Except.ok (owner ++ ('/' :: (repo ++ ".git".toList))) := by
      unfold repoPath
      rw [hs1, if_neg Bool.false_ne_true, hs2, if_pos rfl, hr2, hr1, hg2, hg1]
    unfold parse_github_repo
    rw [hA]
    show Except.ok (stripRepoPath (owner ++ ('/' :: (repo ++ ".git".toList))))
        = Except.ok (some (owner, repo))
    rw [stripRepoPath_canonical owner repo h2 h3]

/-- Witness for C8: host `github.com`, owner `acme`, repo `widgets` satisfy
the well-formedness hypotheses. -/
theorem parse_repo_both_forms_witness :
    (':' ∉ "github.com".toList ∧ '/' ∉ "acme".toList
      ∧ "acme".toList ≠ ([] : List Char) ∧ '/' ∉ "widgets".toList)
    ∧ ((parse_github_repo (sshUrl "github.com".toList "acme".toList
          "widgets".toList) = Except.ok (some ("acme".toList, "widgets".toList))
        ∧ parse_github_repo (httpsUrl "github.com".toList "acme".toList
            "widgets".toList)
          = Except.ok (some ("acme".toList, "widgets".toList)))
      ∧ (parse_github_repo "git@github.com:acme/widgets.git".toList
          = Except.ok (some ("acme".toList, "widgets".toList))
        ∧ parse_github_repo "https://github.com/acme/widgets.git".toList
          = Except.ok (some ("acme".toList, "widgets".toList)))) :=
  ⟨⟨by decide, by decide, by decide, by decide⟩,
    parse_repo_both_forms "github.com".toList "acme".toList "widgets".toList
      (by decide) (by decide) (by decide) (by decide)⟩

/-! Section: Branch naming -/

theorem branchesOf_run_loop_trace (cfg : Config) (task : List Char)
    (items : List Item) (testsOk : Bool) :
    branchesOf (run_loop cfg task items testsOk).trace
      = branchesOf (run_loop_aux cfg task items none).1 := by
  have h1 : List.filterMap branchOf
      (if cfg.dry_run then ([] : List Event) else [Event.runTests]) = [] := by
    split <;> rfl
  have h2pr : List.filterMap branchOf
      (if (if cfg.dry_run then true else testsOk) && cfg.pr && cfg.push
          && optTruthy (run_loop_aux cfg task items none).2 then
        [Event.createPr ((run_loop_aux cfg task items none).2.getD [])]
      else ([] : List Event)) = [] := by
    split <;> split <;> rfl
  unfold run_loop
  simp only [branchesOf, List.filterMap_append, h1, h2pr, List.append_nil]

theorem mkBranch_inj (id1 ts1 id2 ts2 : List Char)
    (hlen : ts1.length = ts2.length)
    (h : mkBranch id1 ts1 = mkBranch id2 ts2) :
    id1 = id2 ∧ ts1 = ts2 := by
  unfold mkBranch at h
  have hlen2 : ('/' :: ts1).length = ('/' :: ts2).length := by simp [hlen]
  obtain ⟨h1, h2⟩ := List.append_inj' h hlen2
  refine ⟨List.append_right_injective _ h1, ?_⟩
  injection h2

theorem run_loop_aux_branches_nodup (cfg : Config) (task : List Char) :
    ∀ (items : List Item) (last : Option (List Char)),
      (items.map (fun it : Item => it.1.id)).Nodup →
      (∀ it ∈ items, (it.2.2 : List Char).length = 14) →
      (branchesOf (run_loop_aux cfg task items last).1).Nodup := by
  intro items
  induction items with
  | nil => intro last _ _; simp [run_loop_aux, branchesOf]
  | cons it rest ih =>
    obtain ⟨p, env, ts⟩ := it
    intro last hid hts
    rw [List.map_cons, List.nodup_cons] at hid
    have htshead : ts.length = 14 := hts (p, env, ts) (List.mem_cons_self _ _)
    have htsrest : ∀ it ∈ rest, (it.2.2 : List Char).length = 14 :=
      fun it hit => hts it (List.mem_cons_of_mem _ hit)
    rw [run_loop_aux_cons]
    show (List.filterMap branchOf ((personaStep cfg task env ts p).1
        ++ (run_loop_aux cfg task rest
              (updateLast (personaStep cfg task env ts p).2 last)).1)).Nodup
    rw [List.filterMap_append]
    rcases personaStep_shape cfg task env ts p with h | ⟨evs, h, hb⟩
    · rw [h]
      simp only [List.filterMap_nil, List.nil_append]
      exact ih _ hid.2 htsrest
    · rw [h]
      have hb' : List.filterMap branchOf evs = [] := hb
      have hbb : List.filterMap branchOf
          (Event.createBranch (mkBranch p.id ts) :: evs)
          = [mkBranch p.id ts] := by
        simp [branchOf, hb']
      rw [hbb, List.singleton_append, List.nodup_cons]
      constructor
      · intro hmem
        obtain ⟨it, hit, heq⟩ :=
          run_loop_aux_branch_mem cfg task rest _ _ hmem
        have hlen : ts.length = (it.2.2 : List Char).length := by
          rw [htshead, htsrest it hit]
        obtain ⟨hideq, _⟩ := mkBranch_inj p.id ts it.1.id it.2.2 hlen heq
        exact hid.1 (by rw [hideq]; exact List.mem_map_of_mem _ hit)
      · exact ih _ hid.2 htsrest

/-- C9 counterexample: the claim "branch names are derived from
`(persona.id, run_timestamp)` and are unique within a run" is false on the
code: `timestamp()` is re-evaluated for every persona and nothing
deduplicates persona ids, so two personas with the same id processed within
the same clock second create the same branch name twice. -/
theorem branch_names_cex :
    ¬ ((∃ T, ∀ b ∈ branchesOf (run_loop cfgFull exTask
            [(exPersonaA, envGood, exTs), (exPersonaA, envGood, exTs)]
            true).trace,
          ∃ it ∈ [((exPersonaA : Persona), envGood, exTs),
                  (exPersonaA, envGood, exTs)],
            b = mkBranch it.1.id T)
       ∧ (branchesOf (run_loop cfgFull exTask
            [(exPersonaA, envGood, exTs), (exPersonaA, envGood, exTs)]
            true).trace).Nodup) :=
  fun h => absurd h.2 (by decide)

/-- C9 amended: each branch name is derived from the persona's id together
with the timestamp taken when that persona reaches branch creation
(`timestamp()` is called per persona, not once per run), and branch names
within a run are pairwise distinct provided the personas' ids are pairwise
distinct (timestamps all being 14-character `%Y%m%d%H%M%S` strings). -/
theorem branch_names_per_persona_ts (cfg : Config) (task : List Char)
    (items : List Item) (testsOk : Bool)
    (hid : (items.map (fun it : Item => it.1.id)).Nodup)
    (hts : ∀ it ∈ items, (it.2.2 : List Char).length = 14) :
    (∀ b ∈ branchesOf (run_loop cfg task items testsOk).trace,
        ∃ it ∈ items, b = mkBranch it.1.id it.2.2)
    ∧ (branchesOf (run_loop cfg task items testsOk).trace).Nodup := by
  rw [branchesOf_run_loop_trace]
  exact ⟨fun b hb => run_loop_aux_branch_mem cfg task items none b hb,
    run_loop_aux_branches_nodup cfg task items none hid hts⟩

/-- Witness for C9 (amended): two personas with distinct ids and 14-character
timestamps. -/
theorem branch_names_per_persona_ts_witness :
    (([((exPersonaA : Persona), envGood, exTs),
        (exPersonaB, envApplyFail, exTs2)].map
          (fun it : Item => it.1.id)).Nodup
      ∧ ∀ it ∈ [((exPersonaA : Persona), envGood, exTs),
          (exPersonaB, envApplyFail, exTs2)],
          (it.2.2 : List Char).length = 14)
    ∧ ((∀ b ∈ branchesOf (run_loop cfgFull exTask
          [(exPersonaA, envGood, exTs), (exPersonaB, envApplyFail, exTs2)]
          true).trace,
        ∃ it ∈ [((exPersonaA : Persona), envGood, exTs),
                (exPersonaB, envApplyFail, exTs2)],
          b = mkBranch it.1.id it.2.2)
      ∧ (branchesOf (run_loop cfgFull exTask
          [(exPersonaA, envGood, exTs), (exPersonaB, envApplyFail, exTs2)]
          true).trace).Nodup) :=
  ⟨⟨by decide, by decide⟩,
    branch_names_per_persona_ts cfgFull exTask
      [(exPersonaA, envGood, exTs), (exPersonaB, envApplyFail, exTs2)]
      true (by decide) (by decide)⟩

end Agents
